import Mathlib

/-!
Shallow embedding of `make_dsm.py`: a linear pipeline that builds a digital
surface model (DSM) from a bare-earth elevation raster (DEM) and building
footprints.  Geometries are abstracted to a representative point in the
projected CRS (used for distances) together with the set of raster cells the
footprint covers; raster values and heights are exact rationals.
-/

namespace MakeDSM

/-- A point in the projected coordinate reference system. -/
abbrev Pt := ℚ × ℚ

/-- A building record, as one row of the `blds` / `final` GeoDataFrame:
geometry (point for distances, cell coverage for rasterization), the raw
`HEIGHT` attribute in feet, the `Prop_Class` category, the derived `height`
in meters and the `imputed` flag.  Appended OSM rows carry only geometry, so
`HEIGHT` and the category are `Option`s. -/
structure Bld where
  geom : Pt
  covers : Nat → Nat → Bool
  HEIGHT : Option ℚ
  cls : Option Nat
  height : ℚ
  imputed : Bool

/-- A primary-source footprint as loaded from the shapefile (before the
derived columns are added): every row has a raw `HEIGHT` and a class. -/
structure RawBld where
  geom : Pt
  covers : Nat → Nat → Bool
  HEIGHT : ℚ
  cls : Nat

/-- A supplementary-source (OSM) building row: geometry plus whatever other
tag attributes OSM provides (never read by the pipeline). -/
structure OSMBld where
  geom : Pt
  covers : Nat → Nat → Bool
  tags : List (String × String)

/-- Feet-to-meter conversion factor, line 74: `blds['HEIGHT'] * 0.3048`. -/
def feetToM : ℚ := 0.3048

/-- Build one `blds` row from a raw shapefile row: `height` is the raw
`HEIGHT` converted to meters (line 74), `imputed` starts `False` (line 103). -/
def primaryBld (r : RawBld) : Bld :=
  { geom := r.geom, covers := r.covers, HEIGHT := some r.HEIGHT,
    cls := some r.cls, height := r.HEIGHT * feetToM, imputed := false }

/-- The loaded `blds` frame with derived columns. -/
def loadBlds (rs : List RawBld) : List Bld := rs.map primaryBld

/-- Heights of the buildings with known height (`blds[blds.height > 0]`)
belonging to class `c` (the `groupby('Prop_Class')` group of `c`). -/
def clsHeights (blds : List Bld) (c : Nat) : List ℚ :=
  ((blds.filter fun b => decide (0 < b.height)).filter
    fun b => decide (b.cls = some c)).map Bld.height

/-- The per-class mean of known heights: entry of the `heights` dict
(line 99).  `none` when the class is absent from the known-height set
(`Prop_Class.isin(classes)` fails), or when the row has no class at all. -/
def clsMean (blds : List Bld) : Option Nat → Option ℚ
  | none => none
  | some c =>
    let hs := clsHeights blds c
    if hs.isEmpty then none else some (hs.sum / hs.length)

/-- Category-mean imputation (lines 104-107): a row with `height == 0` whose
class has a known mean gets that mean and `imputed = True`; all other rows
are untouched. -/
def imputeByClass (blds : List Bld) : List Bld :=
  blds.map fun b =>
    if b.height = 0 then
      match clsMean blds b.cls with
      | some m => { b with height := m, imputed := true }
      | none => b
    else b

/-- Combine a candidate distance with an optional best-so-far distance. -/
def nearMin (x : ℚ) : Option ℚ → ℚ
  | none => x
  | some m => min x m

/-- Distance from point `g` to the nearest record of a list, under a distance
function `d` on the projected CRS; `none` on the empty list. -/
def nearestDist (d : Pt → Pt → ℚ) (g : Pt) : List Bld → Option ℚ
  | [] => none
  | b :: bs => some (nearMin (d g b.geom) (nearestDist d g bs))

/-- Whether a row with the given recorded nearest distance survives the
drop of line 126: the `sjoin_nearest(..., max_distance=300)` join records
the nearest distance when it is at most 300 (else the row is left unmatched
with a null distance), and line 126 drops exactly the rows whose recorded
distance is 0. -/
def tempKeepVal : Option ℚ → Bool
  | none => true
  | some m => !(decide (m ≤ 300) && decide (m = 0))

/-- Whether an OSM row survives into `temp` (lines 123-126). -/
def tempKeep (d : Pt → Pt → ℚ) (blds : List Bld) (o : OSMBld) : Bool :=
  tempKeepVal (nearestDist d o.geom blds)

/-- The `temp` frame: OSM rows not coincident with a primary footprint. -/
def tempFilter (d : Pt → Pt → ℚ) (osms : List OSMBld) (blds : List Bld) :
    List OSMBld :=
  osms.filter (tempKeep d blds)

/-- An appended OSM row after lines 154-158: only the geometry survives
(`temp[['geometry']]`), every other column is null, then `imputed` null
becomes `True` (line 157) and `height` null becomes 0 (line 158). -/
def osmToBld (o : OSMBld) : Bld :=
  { geom := o.geom, covers := o.covers, HEIGHT := none,
    cls := none, height := 0, imputed := true }

/-- The merged `final` frame (line 154): primary rows followed by the
geometry-only OSM additions. -/
def mergeFinal (blds : List Bld) (temp : List OSMBld) : List Bld :=
  blds ++ temp.map osmToBld

/-- Combine a candidate record with an optional best-so-far record, keeping
whichever is closer to `g` (the candidate on ties). -/
def argmin2 (d : Pt → Pt → ℚ) (g : Pt) (b : Bld) : Option Bld → Bld
  | none => b
  | some c => if d g b.geom ≤ d g c.geom then b else c

/-- The nearest record of a list to point `g` (first one on ties);
`none` on the empty list. -/
def argminB (d : Pt → Pt → ℚ) (g : Pt) : List Bld → Option Bld
  | [] => none
  | b :: bs => some (argmin2 d g b (argminB d g bs))

/-- Nearest-neighbor fallback (lines 160-170): rows with `height == 0` get
the height of the nearest member of `neighbors`, the rows with positive
height; all other rows are untouched. -/
def nnImpute (d : Pt → Pt → ℚ) (final : List Bld) : List Bld :=
  let neighbors := final.filter fun b => decide (0 < b.height)
  final.map fun b =>
    if b.height = 0 then
      match argminB d b.geom neighbors with
      | some c => { b with height := c.height }
      | none => b
    else b

/-- A raster: a grid of rational values with fixed row and column counts. -/
structure Grid where
  rows : Nat
  cols : Nat
  val : Nat → Nat → ℚ

/-- The in-bounds raster cells under a building's footprint: the non-null
cells of `dem.rio.clip([bld.geometry], drop=False)`. -/
def fpCells (g : Grid) (b : Bld) : List (Nat × Nat) :=
  ((List.range g.rows).flatMap fun i =>
    (List.range g.cols).map fun j => (i, j)).filter fun p => b.covers p.1 p.2

/-- `clipped.mean()`: mean of the raster over the footprint cells, null when
the footprint covers no cell. -/
def fpMean (g : Grid) (b : Bld) : Option ℚ :=
  let cs := fpCells g b
  if cs.isEmpty then none
  else some ((cs.map fun p => g.val p.1 p.2).sum / cs.length)

/-- One iteration of the rasterization loop (lines 183-185):
`dsm = dsm.where(np.isnan(clipped), clipped.mean() + bld.height)` keeps the
running raster where the clip is null (outside the footprint) and writes
mean-under-footprint plus building height at the cells under the footprint.
When the footprint covers no cell the clip is null everywhere and nothing
changes. -/
def applyBld (dem : Grid) (dsm : Grid) (b : Bld) : Grid :=
  match fpMean dem b with
  | none => dsm
  | some m =>
    { rows := dsm.rows, cols := dsm.cols,
      val := fun i j =>
        if b.covers i j = true ∧ i < dem.rows ∧ j < dem.cols then
          m + b.height
        else dsm.val i j }

/-- The rasterization loop: start from a copy of the DEM (line 182) and fold
the per-building overwrite over the merged set in order. -/
def makeDSM (dem : Grid) (blds : List Bld) : Grid :=
  blds.foldl (applyBld dem) dem

/-- The merged, fully imputed record set produced by the script before the
rasterization stage. -/
def pipelineRecords (d : Pt → Pt → ℚ) (raws : List RawBld)
    (osms : List OSMBld) : List Bld :=
  let blds := imputeByClass (loadBlds raws)
  nnImpute d (mergeFinal blds (tempFilter d osms blds))

/-- The whole pipeline: records, then rasterization. -/
def pipeline (d : Pt → Pt → ℚ) (dem : Grid) (raws : List RawBld)
    (osms : List OSMBld) : Grid :=
  makeDSM dem (pipelineRecords d raws osms)

/-- The geometry part of an OSM row: what `temp[['geometry']]` keeps. -/
def osmGeo (o : OSMBld) : Pt × (Nat → Nat → Bool) := (o.geom, o.covers)

/-! ### Concrete instances used in scenarios and witnesses -/

/-- A flat 10x10 elevation grid of value 100.0 (the spec's end-to-end
scenario). -/
def flatDem : Grid := ⟨10, 10, fun _ _ => 100⟩

/-- A single 2x2 footprint of height 5.0 centered in the 10x10 grid. -/
def sqBld : Bld :=
  { geom := (0, 0), covers := fun i j => (i == 4 || i == 5) && (j == 4 || j == 5),
    HEIGHT := some 5, cls := some 1, height := 5, imputed := false }

/-- A 1x1 zero-elevation grid. -/
def demCE : Grid := ⟨1, 1, fun _ _ => 0⟩

/-- A building of height 1 covering every cell. -/
def bldA : Bld :=
  { geom := (0, 0), covers := fun _ _ => true, HEIGHT := some 0, cls := some 0,
    height := 1, imputed := false }

/-- A building of height 2 covering every cell. -/
def bldB : Bld :=
  { geom := (0, 0), covers := fun _ _ => true, HEIGHT := some 0, cls := some 0,
    height := 2, imputed := false }

/-- A footprint covering no raster cell. -/
def coversNone : Nat → Nat → Bool := fun _ _ => false

/-- A primary building record with a known positive height. -/
def posBld : Bld :=
  { geom := (0, 0), covers := coversNone, HEIGHT := some 7, cls := some 1,
    height := 7, imputed := false }

/-- A primary building record lacking a height, in the same class as
`posBld`. -/
def zeroBld : Bld :=
  { geom := (1, 0), covers := coversNone, HEIGHT := some 0, cls := some 1,
    height := 0, imputed := false }

/-- A raw shapefile row with `HEIGHT` 10 feet. -/
def rawW : RawBld := { geom := (0, 0), covers := coversNone, HEIGHT := 10, cls := 1 }

/-- An OSM row carrying a tag. -/
def osmA : OSMBld :=
  { geom := (5, 5), covers := coversNone, tags := [("building", "yes")] }

/-- An OSM row with the same geometry as `osmA` but no tags. -/
def osmB : OSMBld := { geom := (5, 5), covers := coversNone, tags := [] }

/-- A constant distance function of value 1. -/
def dOne : Pt → Pt → ℚ := fun _ _ => 1

/-- A constant distance function of value 301, beyond the 300 m search
radius. -/
def dFar : Pt → Pt → ℚ := fun _ _ => 301

/-! ### Helper lemmas about the rasterization loop -/

theorem applyBld_rows (dem dsm : Grid) (b : Bld) :
    (applyBld dem dsm b).rows = dsm.rows := by
  unfold applyBld
  cases fpMean dem b <;> rfl

theorem applyBld_cols (dem dsm : Grid) (b : Bld) :
    (applyBld dem dsm b).cols = dsm.cols := by
  unfold applyBld
  cases fpMean dem b <;> rfl

theorem applyBld_val_not_covered (dem dsm : Grid) (b : Bld) (i j : Nat)
    (h : b.covers i j = false) :
    (applyBld dem dsm b).val i j = dsm.val i j := by
  unfold applyBld
  cases fpMean dem b with
  | none => rfl
  | some m =>
    simp only [Grid.val]
    rw [if_neg]
    intro hc
    rw [h] at hc
    exact Bool.false_ne_true hc.1

theorem foldl_val_not_covered (dem : Grid) (l : List Bld) (i j : Nat)
    (h : ∀ b ∈ l, b.covers i j = false) :
    ∀ dsm : Grid, (l.foldl (applyBld dem) dsm).val i j = dsm.val i j := by
  induction l with
  | nil => intro dsm; rfl
  | cons b bs ih =>
    intro dsm
    rw [List.foldl_cons, ih (fun a ha => h a (List.mem_cons_of_mem b ha)),
      applyBld_val_not_covered dem dsm b i j (h b (List.mem_cons_self b bs))]

theorem foldl_rows (dem : Grid) (l : List Bld) :
    ∀ dsm : Grid, (l.foldl (applyBld dem) dsm).rows = dsm.rows := by
  induction l with
  | nil => intro dsm; rfl
  | cons b bs ih =>
    intro dsm
    rw [List.foldl_cons, ih, applyBld_rows]

theorem foldl_cols (dem : Grid) (l : List Bld) :
    ∀ dsm : Grid, (l.foldl (applyBld dem) dsm).cols = dsm.cols := by
  induction l with
  | nil => intro dsm; rfl
  | cons b bs ih =>
    intro dsm
    rw [List.foldl_cons, ih, applyBld_cols]

theorem mem_fpCells (g : Grid) (b : Bld) (i j : Nat)
    (hi : i < g.rows) (hj : j < g.cols) (hc : b.covers i j = true) :
    (i, j) ∈ fpCells g b := by
  unfold fpCells
  rw [List.mem_filter]
  refine ⟨?_, hc⟩
  rw [List.mem_flatMap]
  exact ⟨i, List.mem_range.mpr hi,
    List.mem_map.mpr ⟨j, List.mem_range.mpr hj, rfl⟩⟩

theorem fpMean_isSome (dem : Grid) (b : Bld) (i j : Nat)
    (hi : i < dem.rows) (hj : j < dem.cols) (hc : b.covers i j = true) :
    ∃ m, fpMean dem b = some m := by
  unfold fpMean
  rw [if_neg]
  · exact ⟨_, rfl⟩
  · intro hemp
    rw [List.isEmpty_iff] at hemp
    have := mem_fpCells dem b i j hi hj hc
    rw [hemp] at this
    exact (List.not_mem_nil _) this

theorem applyBld_val_covered (dem dsm : Grid) (b : Bld) (i j : Nat) (m : ℚ)
    (hc : b.covers i j = true) (hi : i < dem.rows) (hj : j < dem.cols)
    (hm : fpMean dem b = some m) :
    (applyBld dem dsm b).val i j = m + b.height := by
  unfold applyBld
  rw [hm]
  simp only [Grid.val]
  rw [if_pos ⟨hc, hi, hj⟩]

theorem makeDSM_val_split (dem : Grid) (pre post : List Bld) (b : Bld)
    (i j : Nat) (m : ℚ)
    (hc : b.covers i j = true) (hi : i < dem.rows) (hj : j < dem.cols)
    (hpost : ∀ a ∈ post, a.covers i j = false)
    (hm : fpMean dem b = some m) :
    (makeDSM dem (pre ++ b :: post)).val i j = m + b.height := by
  unfold makeDSM
  rw [List.foldl_append, List.foldl_cons,
    foldl_val_not_covered dem post i j hpost,
    applyBld_val_covered dem _ b i j m hc hi hj hm]

/-! ### Helper lemmas about nearest-record selection -/

theorem argminB_isSome (d : Pt → Pt → ℚ) (g : Pt) (l : List Bld)
    (h : l ≠ []) : ∃ c, argminB d g l = some c := by
  cases l with
  | nil => exact absurd rfl h
  | cons b bs => exact ⟨_, rfl⟩

theorem argminB_eq_none (d : Pt → Pt → ℚ) (g : Pt) (l : List Bld)
    (h : argminB d g l = none) : l = [] := by
  cases l with
  | nil => rfl
  | cons b bs => exact Option.noConfusion h

theorem argminB_mem (d : Pt → Pt → ℚ) (g : Pt) :
    ∀ l : List Bld, ∀ c : Bld, argminB d g l = some c → c ∈ l := by
  intro l
  induction l with
  | nil => intro c hc; exact Option.noConfusion hc
  | cons b bs ih =>
    intro c hc
    rw [argminB] at hc
    have hc' : argmin2 d g b (argminB d g bs) = c := Option.some_inj.mp hc
    cases hbs : argminB d g bs with
    | none =>
      rw [hbs] at hc'
      simp only [argmin2] at hc'
      exact hc' ▸ List.mem_cons_self b bs
    | some a =>
      rw [hbs] at hc'
      simp only [argmin2] at hc'
      by_cases hle : d g b.geom ≤ d g a.geom
      · rw [if_pos hle] at hc'
        exact hc' ▸ List.mem_cons_self b bs
      · rw [if_neg hle] at hc'
        exact List.mem_cons_of_mem b (hc' ▸ ih a hbs)

theorem argminB_le (d : Pt → Pt → ℚ) (g : Pt) :
    ∀ l : List Bld, ∀ c : Bld, argminB d g l = some c →
      ∀ a ∈ l, d g c.geom ≤ d g a.geom := by
  intro l
  induction l with
  | nil => intro c hc; exact Option.noConfusion hc
  | cons b bs ih =>
    intro c hc a ha
    rw [argminB] at hc
    have hc' : argmin2 d g b (argminB d g bs) = c := Option.some_inj.mp hc
    cases hbs : argminB d g bs with
    | none =>
      have hnil : bs = [] := argminB_eq_none d g bs hbs
      subst hnil
      rw [hbs] at hc'
      simp only [argmin2] at hc'
      subst hc'
      rcases List.mem_singleton.mp ha with rfl
      exact le_refl _
    | some m =>
      rw [hbs] at hc'
      simp only [argmin2] at hc'
      rcases List.mem_cons.mp ha with rfl | ha'
      · by_cases hle : d g a.geom ≤ d g m.geom
        · rw [if_pos hle] at hc'
          subst hc'
          exact le_refl _
        · rw [if_neg hle] at hc'
          subst hc'
          exact le_of_lt (lt_of_not_le hle)
      · by_cases hle : d g b.geom ≤ d g m.geom
        · rw [if_pos hle] at hc'
          subst hc'
          exact le_trans hle (ih m hbs a ha')
        · rw [if_neg hle] at hc'
          subst hc'
          exact ih m hbs a ha'

theorem nearestDist_isSome (d : Pt → Pt → ℚ) (g : Pt) (l : List Bld)
    (h : l ≠ []) : ∃ m, nearestDist d g l = some m := by
  cases l with
  | nil => exact absurd rfl h
  | cons b bs => exact ⟨_, rfl⟩

theorem nearestDist_nonneg (d : Pt → Pt → ℚ) (hd : ∀ p q, 0 ≤ d p q)
    (g : Pt) : ∀ l : List Bld, ∀ m : ℚ, nearestDist d g l = some m →
      0 ≤ m := by
  intro l
  induction l with
  | nil => intro m hm; exact Option.noConfusion hm
  | cons b bs ih =>
    intro m hm
    rw [nearestDist] at hm
    have hm' : nearMin (d g b.geom) (nearestDist d g bs) = m :=
      Option.some_inj.mp hm
    cases hbs : nearestDist d g bs with
    | none =>
      rw [hbs] at hm'
      simp only [nearMin] at hm'
      rw [← hm']
      exact hd g b.geom
    | some m' =>
      rw [hbs] at hm'
      simp only [nearMin] at hm'
      rw [← hm']
      exact le_min (hd g b.geom) (ih m' hbs)

/-- The mean of a nonempty list of positive rationals is positive. -/
theorem sum_div_length_pos (l : List ℚ) (hne : l ≠ [])
    (hpos : ∀ x ∈ l, 0 < x) : 0 < l.sum / l.length := by
  apply div_pos
  · exact List.sum_pos l hpos hne
  · exact_mod_cast List.length_pos.mpr hne

/-! ### Evaluation of the concrete scenarios -/

theorem fpMean_flatDem_sqBld : fpMean flatDem sqBld = some 100 := by
  have hcells : fpCells flatDem sqBld = [(4, 4), (4, 5), (5, 4), (5, 5)] := by
    decide
  unfold fpMean
  rw [hcells]
  norm_num [flatDem, List.sum_cons, List.sum_nil]

theorem fpMean_demCE_bldA : fpMean demCE bldA = some 0 := by
  have hcells : fpCells demCE bldA = [(0, 0)] := by decide
  unfold fpMean
  rw [hcells]
  norm_num [demCE, List.sum_cons, List.sum_nil]

theorem fpMean_demCE_bldB : fpMean demCE bldB = some 0 := by
  have hcells : fpCells demCE bldB = [(0, 0)] := by decide
  unfold fpMean
  rw [hcells]
  norm_num [demCE, List.sum_cons, List.sum_nil]

/-! ### The claims -/

/-- Claim C1, as stated, is false on the code: with two buildings whose
footprints overlap, the cell value written for the earlier building is
overwritten by the later one, so the output under the earlier building's
footprint is not that building's mean-plus-height.  Concretely, on a 1x1
zero grid, `bldA` (height 1) is in the merged set and covers cell (0,0),
the mean under its footprint is 0, yet the output at (0,0) is 2, not
0 + 1. -/
theorem C1_counterexample :
    bldA ∈ [bldA, bldB] ∧ bldA.covers 0 0 = true ∧
    fpMean demCE bldA = some 0 ∧
    (makeDSM demCE [bldA, bldB]).val 0 0 ≠ 0 + bldA.height := by
  refine ⟨List.mem_cons_self bldA [bldB], rfl, fpMean_demCE_bldA, ?_⟩
  show (applyBld demCE (applyBld demCE demCE bldA) bldB).val 0 0 ≠
    0 + bldA.height
  rw [applyBld_val_covered demCE _ bldB 0 0 0 rfl (by decide) (by decide)
    fpMean_demCE_bldB]
  show (0 : ℚ) + 2 ≠ 0 + 1
  norm_num

/-- Claim C1 (amended): for every building record in the merged set and
every raster cell under its footprint that no later record in iteration
order also covers, the output DSM cell value equals the mean of the input
elevation raster under that record's footprint plus its height; and in the
end-to-end scenario — a flat 10x10 grid of value 100.0 with a single
centered 2x2 footprint of height 5.0 — the output equals 100.0 everywhere
except the 2x2 region, which equals 105.0. -/
theorem C1_last_writer_mean_plus_height :
    (∀ (dem : Grid) (pre post : List Bld) (b : Bld) (i j : Nat),
      b.covers i j = true → i < dem.rows → j < dem.cols →
      (∀ a ∈ post, a.covers i j = false) →
      ∃ m, fpMean dem b = some m ∧
        (makeDSM dem (pre ++ b :: post)).val i j = m + b.height) ∧
    (∀ i j : Nat, i < 10 → j < 10 →
      (makeDSM flatDem [sqBld]).val i j =
        if sqBld.covers i j then 105 else 100) := by
  constructor
  · intro dem pre post b i j hc hi hj hpost
    obtain ⟨m, hm⟩ := fpMean_isSome dem b i j hi hj hc
    exact ⟨m, hm, makeDSM_val_split dem pre post b i j m hc hi hj hpost hm⟩
  · intro i j hi hj
    by_cases hc : sqBld.covers i j = true
    · rw [if_pos hc]
      have h := makeDSM_val_split flatDem [] [] sqBld i j 100 hc hi hj
        (by intro a ha; exact absurd ha (List.not_mem_nil a))
        fpMean_flatDem_sqBld
      rw [List.nil_append] at h
      rw [h]
      show (100 : ℚ) + 5 = 105
      norm_num
    · rw [if_neg hc]
      have hc' : sqBld.covers i j = false := Bool.not_eq_true _ ▸ hc
      have h := foldl_val_not_covered flatDem [sqBld] i j
        (by intro a ha; rcases List.mem_singleton.mp ha with rfl; exact hc')
        flatDem
      exact h

/-- Witness for C1: the 2x2 footprint covers cell (4,4) of the flat grid,
and the output there is the footprint mean plus the building height. -/
theorem C1_witness :
    ∃ m, fpMean flatDem sqBld = some m ∧
      (makeDSM flatDem ([] ++ sqBld :: [])).val 4 4 = m + sqBld.height :=
  C1_last_writer_mean_plus_height.1 flatDem [] [] sqBld 4 4 (by decide)
    (by decide) (by decide) (by decide)

/-- Claim C2: raster cells under no building footprint keep the input
elevation value, and the output raster has the same grid (row and column
counts) as the elevation raster. -/
theorem C2_outside_footprints_unchanged (dem : Grid) (blds : List Bld)
    (i j : Nat) (hi : i < dem.rows) (hj : j < dem.cols)
    (hout : ∀ b ∈ blds, b.covers i j = false) :
    (makeDSM dem blds).val i j = dem.val i j ∧
    (makeDSM dem blds).rows = dem.rows ∧
    (makeDSM dem blds).cols = dem.cols :=
  ⟨foldl_val_not_covered dem blds i j hout dem,
   foldl_rows dem blds dem, foldl_cols dem blds dem⟩

/-- Witness for C2: cell (0,0) of the flat grid is outside the centered
footprint, and the output keeps the elevation value there. -/
theorem C2_witness :
    (∀ b ∈ [sqBld], b.covers 0 0 = false) ∧
    (makeDSM flatDem [sqBld]).val 0 0 = flatDem.val 0 0 :=
  ⟨by decide,
   (C2_outside_footprints_unchanged flatDem [sqBld] 0 0 (by decide)
     (by decide) (by decide)).1⟩

/-- Claim C8: at a raster cell covered by two or more buildings, the output
equals the mean-plus-height of the last covering building in iteration
order, and that value is computed from the original elevation raster
(`fpMean dem b`), independent of the overwrites made for earlier
buildings. -/
theorem C8_last_write_wins (dem : Grid) (pre post : List Bld) (b e : Bld)
    (i j : Nat) (he : e ∈ pre) (hec : e.covers i j = true)
    (hc : b.covers i j = true) (hi : i < dem.rows) (hj : j < dem.cols)
    (hpost : ∀ a ∈ post, a.covers i j = false) :
    ∃ m, fpMean dem b = some m ∧
      (makeDSM dem (pre ++ b :: post)).val i j = m + b.height ∧
      (makeDSM dem (pre ++ b :: post)).val i j =
        (makeDSM dem (b :: post)).val i j := by
  obtain ⟨m, hm⟩ := fpMean_isSome dem b i j hi hj hc
  have h1 := makeDSM_val_split dem pre post b i j m hc hi hj hpost hm
  have h2 := makeDSM_val_split dem [] post b i j m hc hi hj hpost hm
  rw [List.nil_append] at h2
  exact ⟨m, hm, h1, by rw [h1, h2]⟩

/-- Witness for C8: cell (0,0) is covered by both `bldA` and `bldB`; the
output is the mean-plus-height of `bldB`, the later one. -/
theorem C8_witness :
    ∃ m, fpMean demCE bldB = some m ∧
      (makeDSM demCE ([bldA] ++ bldB :: [])).val 0 0 = m + bldB.height ∧
      (makeDSM demCE ([bldA] ++ bldB :: [])).val 0 0 =
        (makeDSM demCE (bldB :: [])).val 0 0 :=
  C8_last_write_wins demCE [bldA] [] bldB bldA 0 0
    (List.mem_cons_self bldA []) rfl rfl (by decide) (by decide) (by decide)

/-- Claim C3: after the nearest-neighbor fallback, provided at least one
record of the merged set has a positive height, every record has a
non-zero height: the count of zero-height footprints is zero. -/
theorem C3_no_zero_heights_after_fallback (d : Pt → Pt → ℚ)
    (final : List Bld) (hpos : ∃ b ∈ final, 0 < b.height) :
    ∀ r ∈ nnImpute d final, r.height ≠ 0 := by
  intro r hr
  obtain ⟨b0, hb0, hb0pos⟩ := hpos
  have hneigh : b0 ∈ final.filter (fun b => decide (0 < b.height)) :=
    List.mem_filter.mpr ⟨hb0, decide_eq_true hb0pos⟩
  have hne := List.ne_nil_of_mem hneigh
  simp only [nnImpute] at hr
  obtain ⟨b, hb, rfl⟩ := List.mem_map.mp hr
  by_cases hz : b.height = 0
  · rw [if_pos hz]
    obtain ⟨c, hc⟩ := argminB_isSome d b.geom _ hne
    rw [hc]
    show c.height ≠ 0
    have hcmem := argminB_mem d b.geom _ c hc
    exact ne_of_gt (of_decide_eq_true (List.mem_filter.mp hcmem).2)
  · rw [if_neg hz]
    exact hz

/-- Witness for C3: on a two-record set with one known height, no record of
the fallback's output has height zero. -/
theorem C3_witness :
    (∃ b ∈ [posBld, zeroBld], 0 < b.height) ∧
    ∀ r ∈ nnImpute dOne [posBld, zeroBld], r.height ≠ 0 :=
  ⟨by decide, C3_no_zero_heights_after_fallback dOne [posBld, zeroBld]
    (by decide)⟩

/-- Claim C4: a footprint with zero height whose category has at least one
footprint of known positive height receives the per-category mean of those
known heights, gets `imputed = True`, and the assigned mean is positive, so
no footprint of such a category retains a zero height. -/
theorem C4_category_mean_imputation (blds : List Bld) (k : Nat)
    (hk : k < blds.length) (hz : blds[k].height = 0)
    (c : Nat) (hcls : blds[k].cls = some c)
    (hknown : ∃ b ∈ blds, 0 < b.height ∧ b.cls = some c) :
    ∃ m, clsMean blds blds[k].cls = some m ∧ 0 < m ∧
      (imputeByClass blds)[k]? =
        some { blds[k] with height := m, imputed := true } := by
  obtain ⟨b0, hb0, hb0pos, hb0cls⟩ := hknown
  have hb0mem : b0.height ∈ clsHeights blds c := by
    unfold clsHeights
    exact List.mem_map.mpr ⟨b0,
      List.mem_filter.mpr ⟨List.mem_filter.mpr ⟨hb0, decide_eq_true hb0pos⟩,
        decide_eq_true hb0cls⟩, rfl⟩
  have hne : clsHeights blds c ≠ [] := List.ne_nil_of_mem hb0mem
  have hposs : ∀ x ∈ clsHeights blds c, 0 < x := by
    intro x hx
    unfold clsHeights at hx
    obtain ⟨b', hb', rfl⟩ := List.mem_map.mp hx
    exact of_decide_eq_true (List.mem_filter.mp (List.mem_filter.mp hb').1).2
  have hmean : clsMean blds (some c) =
      some ((clsHeights blds c).sum / (clsHeights blds c).length) := by
    simp only [clsMean]
    rw [if_neg (fun h => hne (List.isEmpty_iff.mp h))]
  refine ⟨(clsHeights blds c).sum / (clsHeights blds c).length,
    by rw [hcls]; exact hmean,
    sum_div_length_pos _ hne hposs, ?_⟩
  unfold imputeByClass
  rw [List.getElem?_map, List.getElem?_eq_getElem hk]
  simp only [Option.map_some']
  rw [if_pos hz, hcls, hmean]

/-- Witness for C4: the zero-height record of class 1 gets the mean of the
known heights of class 1. -/
theorem C4_witness :
    ∃ m, clsMean [posBld, zeroBld] [posBld, zeroBld][1].cls = some m ∧
      0 < m ∧
      (imputeByClass [posBld, zeroBld])[1]? =
        some { [posBld, zeroBld][1] with height := m, imputed := true } :=
  C4_category_mean_imputation [posBld, zeroBld] 1 (by decide) (by decide) 1
    (by decide) (by decide)

/-- Claim C5: for every primary-source footprint record, the derived height
in meters is the raw `HEIGHT` attribute (in feet) times exactly 0.3048. -/
theorem C5_height_conversion (raws : List RawBld) (k : Nat)
    (hk : k < raws.length) :
    (loadBlds raws)[k]? = some (primaryBld raws[k]) ∧
    (primaryBld raws[k]).height = raws[k].HEIGHT * 0.3048 := by
  constructor
  · unfold loadBlds
    rw [List.getElem?_map, List.getElem?_eq_getElem hk]
    rfl
  · rfl

/-- Witness for C5: the record loaded from `rawW` has height
`10 * 0.3048`. -/
theorem C5_witness :
    0 < [rawW].length ∧
    ((loadBlds [rawW])[0]? = some (primaryBld rawW) ∧
      (primaryBld rawW).height = rawW.HEIGHT * 0.3048) :=
  ⟨by decide, C5_height_conversion [rawW] 0 (by decide)⟩

/-- Claim C9: a record whose height is positive before the imputation stage
passes unchanged (height, geometry, category — the whole record) through
the category-mean stage, the merge, and the nearest-neighbor fallback:
both stages only assign to records whose height equals zero. -/
theorem C9_positive_heights_untouched (d : Pt → Pt → ℚ) (blds : List Bld)
    (temp : List OSMBld) (k : Nat) (hk : k < blds.length)
    (hpos : 0 < blds[k].height) :
    (imputeByClass blds)[k]? = some blds[k] ∧
    (nnImpute d (mergeFinal (imputeByClass blds) temp))[k]? =
      some blds[k] := by
  have hz : ¬(blds[k].height = 0) := ne_of_gt hpos
  have h1 : (imputeByClass blds)[k]? = some blds[k] := by
    unfold imputeByClass
    rw [List.getElem?_map, List.getElem?_eq_getElem hk]
    simp only [Option.map_some']
    rw [if_neg hz]
  refine ⟨h1, ?_⟩
  have hk1 : k < (imputeByClass blds).length := by
    simpa [imputeByClass] using hk
  have h2 : (mergeFinal (imputeByClass blds) temp)[k]? = some blds[k] := by
    unfold mergeFinal
    rw [List.getElem?_append_left hk1]
    exact h1
  simp only [nnImpute]
  rw [List.getElem?_map, h2]
  simp only [Option.map_some']
  rw [if_neg hz]

/-- Witness for C9: `posBld` (height 7) is unchanged by both stages. -/
theorem C9_witness :
    (imputeByClass [posBld])[0]? = some posBld ∧
    (nnImpute dOne (mergeFinal (imputeByClass [posBld]) []))[0]? =
      some posBld :=
  C9_positive_heights_untouched dOne [posBld] [] 0 (by decide) (by decide)

/-- Claim C6: a supplementary (OSM) footprint survives into `temp` — and so
into the merged set — exactly when its distance to the nearest primary
footprint in the projected CRS is positive. -/
theorem C6_osm_included_iff_positive_distance (d : Pt → Pt → ℚ)
    (hd : ∀ p q, 0 ≤ d p q) (osms : List OSMBld) (blds : List Bld)
    (hne : blds ≠ []) (o : OSMBld) :
    o ∈ tempFilter d osms blds ↔
      (o ∈ osms ∧ ∃ m, nearestDist d o.geom blds = some m ∧ 0 < m) := by
  obtain ⟨m0, hm0⟩ := nearestDist_isSome d o.geom blds hne
  have h0le : 0 ≤ m0 := nearestDist_nonneg d hd o.geom blds m0 hm0
  unfold tempFilter
  rw [List.mem_filter]
  constructor
  · rintro ⟨ho, hkeep⟩
    refine ⟨ho, m0, hm0, ?_⟩
    unfold tempKeep at hkeep
    rw [hm0] at hkeep
    rcases lt_or_eq_of_le h0le with h | h
    · exact h
    · rw [← h] at hkeep
      simp only [tempKeepVal] at hkeep
      rw [decide_eq_true (by norm_num : (0 : ℚ) ≤ 300)] at hkeep
      simp at hkeep
  · rintro ⟨ho, m, hm, hmpos⟩
    have hmm : m = m0 := by rw [hm] at hm0; exact Option.some_inj.mp hm0
    refine ⟨ho, ?_⟩
    unfold tempKeep
    rw [hm0]
    simp only [tempKeepVal]
    rw [decide_eq_false (ne_of_gt (hmm ▸ hmpos) : ¬(m0 = 0)),
      Bool.and_false, Bool.not_false]

/-- Witness for C6: with one OSM row, one primary row and a constant unit
distance, inclusion in `temp` is equivalent to the positive-distance
condition. -/
theorem C6_witness :
    osmA ∈ tempFilter dOne [osmA] [posBld] ↔
      (osmA ∈ [osmA] ∧
        ∃ m, nearestDist dOne osmA.geom [posBld] = some m ∧ 0 < m) :=
  C6_osm_included_iff_positive_distance dOne (fun _ _ => zero_le_one)
    [osmA] [posBld] (List.cons_ne_nil posBld []) osmA

/-- Claim C7: an OSM footprint whose nearest primary footprint is farther
than 300 m is kept in `temp`, appended to the merged set as a
geometry-only record flagged `imputed = True`, and by the nearest-neighbor
fallback receives the height of the nearest record with known positive
height. -/
theorem C7_far_osm_appended (d : Pt → Pt → ℚ) (hd : ∀ p q, 0 ≤ d p q)
    (osms : List OSMBld) (blds : List Bld) (o : OSMBld) (ho : o ∈ osms)
    (m : ℚ) (hm : nearestDist d o.geom blds = some m) (hfar : 300 < m)
    (hpos : ∃ b ∈ mergeFinal blds (tempFilter d osms blds), 0 < b.height) :
    o ∈ tempFilter d osms blds ∧
    osmToBld o ∈ mergeFinal blds (tempFilter d osms blds) ∧
    (osmToBld o).imputed = true ∧
    ∃ c, argminB d o.geom
        ((mergeFinal blds (tempFilter d osms blds)).filter
          fun b => decide (0 < b.height)) = some c ∧
      0 < c.height ∧
      (∀ a ∈ (mergeFinal blds (tempFilter d osms blds)).filter
          fun b => decide (0 < b.height),
        d o.geom c.geom ≤ d o.geom a.geom) ∧
      { osmToBld o with height := c.height } ∈
        nnImpute d (mergeFinal blds (tempFilter d osms blds)) := by
  have hkeep : tempKeep d blds o = true := by
    unfold tempKeep
    rw [hm]
    simp only [tempKeepVal]
    rw [decide_eq_false (not_le.mpr hfar), Bool.false_and, Bool.not_false]
  have htemp : o ∈ tempFilter d osms blds := List.mem_filter.mpr ⟨ho, hkeep⟩
  have happ : osmToBld o ∈ mergeFinal blds (tempFilter d osms blds) :=
    List.mem_append.mpr (Or.inr (List.mem_map.mpr ⟨o, htemp, rfl⟩))
  obtain ⟨b0, hb0, hb0pos⟩ := hpos
  have hneigh : b0 ∈ (mergeFinal blds (tempFilter d osms blds)).filter
      (fun b => decide (0 < b.height)) :=
    List.mem_filter.mpr ⟨hb0, decide_eq_true hb0pos⟩
  obtain ⟨c, hc⟩ :=
    argminB_isSome d o.geom _ (List.ne_nil_of_mem hneigh)
  have hcmem := argminB_mem d o.geom _ c hc
  have hcpos : 0 < c.height :=
    of_decide_eq_true (List.mem_filter.mp hcmem).2
  refine ⟨htemp, happ, rfl, c, hc, hcpos, argminB_le d o.geom _ c hc, ?_⟩
  simp only [nnImpute]
  apply List.mem_map.mpr
  refine ⟨osmToBld o, happ, ?_⟩
  show (if (osmToBld o).height = 0 then _ else _) = _
  have h0 : (osmToBld o).height = 0 := by simp [osmToBld]
  rw [if_pos h0]
  have hgeq : (osmToBld o).geom = o.geom := by simp [osmToBld]
  rw [hgeq, hc]

/-- Witness for C7: with a constant distance of 301 the single OSM row is
kept in `temp`. -/
theorem C7_witness : osmB ∈ tempFilter dFar [osmB] [posBld] :=
  (C7_far_osm_appended dFar (fun _ _ => (by decide : (0 : ℚ) ≤ 301))
    [osmB] [posBld] osmB
    (List.mem_cons_self osmB []) 301 rfl (by decide) (by decide)).1

/-- The `temp` stage reads only the geometry of OSM rows: lists of OSM rows
that agree on geometry produce the same appended records. -/
theorem tempFilter_map_congr (d : Pt → Pt → ℚ) (blds : List Bld) :
    ∀ osms1 osms2 : List OSMBld, osms1.map osmGeo = osms2.map osmGeo →
      (tempFilter d osms1 blds).map osmToBld =
        (tempFilter d osms2 blds).map osmToBld := by
  intro osms1
  induction osms1 with
  | nil =>
    intro osms2 h
    cases osms2 with
    | nil => rfl
    | cons o t => exact absurd h (by simp)
  | cons o1 t1 ih =>
    intro osms2 h
    cases osms2 with
    | nil => exact absurd h (by simp)
    | cons o2 t2 =>
      rw [List.map_cons, List.map_cons] at h
      obtain ⟨h1, h2⟩ := List.cons.inj h
      have hgm : o1.geom = o2.geom := congrArg Prod.fst h1
      have hcv : o1.covers = o2.covers := congrArg Prod.snd h1
      have hk : tempKeep d blds o1 = tempKeep d blds o2 := by
        unfold tempKeep
        rw [hgm]
      have hb : osmToBld o1 = osmToBld o2 := by
        unfold osmToBld
        rw [hgm, hcv]
      have ht := ih t2 h2
      unfold tempFilter at ht ⊢
      rw [List.filter_cons, List.filter_cons, hk]
      by_cases hkeep : tempKeep d blds o2 = true
      · rw [if_pos hkeep, if_pos hkeep, List.map_cons, List.map_cons, hb, ht]
      · rw [if_neg hkeep, if_neg hkeep]
        exact ht

/-- Claim C10: only the geometry of appended OSM rows enters the merged
set: two runs whose OSM inputs agree on geometry (and may differ in any
other attribute) produce identical DSMs, and every appended record's final
height is the height of some primary-derived record with positive
height. -/
theorem C10_osm_attributes_ignored (d : Pt → Pt → ℚ) (dem : Grid)
    (raws : List RawBld) (osms1 osms2 : List OSMBld)
    (hgeo : osms1.map osmGeo = osms2.map osmGeo)
    (hpos : ∃ r ∈ raws, 0 < r.HEIGHT) :
    pipeline d dem raws osms1 = pipeline d dem raws osms2 ∧
    ∀ r ∈ (pipelineRecords d raws osms1).drop raws.length,
      ∃ b ∈ imputeByClass (loadBlds raws),
        0 < b.height ∧ r.height = b.height := by
  obtain ⟨r0, hr0, hr0pos⟩ := hpos
  have hp0 : primaryBld r0 ∈ loadBlds raws := List.mem_map.mpr ⟨r0, hr0, rfl⟩
  have hph : 0 < (primaryBld r0).height := by
    show 0 < r0.HEIGHT * feetToM
    exact mul_pos hr0pos (by norm_num [feetToM])
  have hpmem : primaryBld r0 ∈ imputeByClass (loadBlds raws) := by
    unfold imputeByClass
    exact List.mem_map.mpr ⟨primaryBld r0, hp0,
      by rw [if_neg (ne_of_gt hph)]⟩
  constructor
  · simp only [pipeline, pipelineRecords, mergeFinal]
    rw [tempFilter_map_congr d (imputeByClass (loadBlds raws)) osms1 osms2
      hgeo]
  · intro r hr
    have hlen : (imputeByClass (loadBlds raws)).length = raws.length := by
      simp [imputeByClass, loadBlds]
    simp only [pipelineRecords, mergeFinal, nnImpute] at hr
    rw [← List.map_drop, ← hlen, List.drop_left] at hr
    obtain ⟨a, ha, rfl⟩ := List.mem_map.mp hr
    obtain ⟨o, ho, rfl⟩ := List.mem_map.mp ha
    have hneigh : primaryBld r0 ∈
        (imputeByClass (loadBlds raws) ++
          (tempFilter d osms1 (imputeByClass (loadBlds raws))).map
            osmToBld).filter (fun b => decide (0 < b.height)) :=
      List.mem_filter.mpr ⟨List.mem_append_left _ hpmem,
        decide_eq_true hph⟩
    obtain ⟨c, hc⟩ :=
      argminB_isSome d (osmToBld o).geom _ (List.ne_nil_of_mem hneigh)
    have hcmem := argminB_mem d (osmToBld o).geom _ c hc
    have hcpos : 0 < c.height :=
      of_decide_eq_true (List.mem_filter.mp hcmem).2
    have hcin : c ∈ imputeByClass (loadBlds raws) := by
      rcases List.mem_append.mp (List.mem_filter.mp hcmem).1 with h | h
      · exact h
      · obtain ⟨o', _, rfl⟩ := List.mem_map.mp h
        exact absurd hcpos (by norm_num [osmToBld])
    refine ⟨c, hcin, hcpos, ?_⟩
    show ((if (osmToBld o).height = 0 then _ else _ : Bld)).height = c.height
    have h0 : (osmToBld o).height = 0 := by simp [osmToBld]
    rw [if_pos h0, hc]

/-- Witness for C10: one OSM row with a tag and one without, same geometry,
give the same DSM. -/
theorem C10_witness :
    pipeline dOne flatDem [rawW] [osmA] =
      pipeline dOne flatDem [rawW] [osmB] :=
  (C10_osm_attributes_ignored dOne flatDem [rawW] [osmA] [osmB] rfl
    ⟨rawW, List.mem_cons_self rawW [], by decide⟩).1

end MakeDSM
